import Mathlib

/-!
Verification of the hexagonal-lattice indexing and rotation arithmetic of
`armi/utils/hexagon.py`.

The Python functions are embedded shallowly:

* machine integers become `ℤ` (Python integers are unbounded, so no modular
  wrap is needed); ring counts and list positions are `ℕ` where the source
  guarantees nonnegativity;
* `math.sqrt` / `math.ceil` in `numRingsToHoldNumCells` are modelled as exact
  real arithmetic, computed by integer square root (the derivation is given at
  the definition);
* code that raises exceptions returns `Except String`; the marker strings
  `"TypeError"`, `"ValueError"`, `"IndexError"` record which Python exception
  class is raised;
* the dynamic type of the `data` argument of `rotateHexCellData` (list,
  `numpy.ndarray`, or anything else) is modelled by the sum type `PyData`.
-/

namespace ArmiHexagon

/-- The dynamic container kinds accepted by `rotateHexCellData`: a Python
`list`, a `numpy.ndarray` (both modelled as a Lean list of elements), or any
other object (rejected with `TypeError` before its contents matter). -/
inductive PyData (α : Type) where
  | list (xs : List α)
  | ndarray (xs : List α)
  | other

deriving instance DecidableEq for PyData

deriving instance DecidableEq for Except

/-- `numPositionsInRing` from `hexagon.py`:
`return (ring - 1) * 6 if ring != 1 else 1`.  No validation is performed by
the source. -/
def numPositionsInRing (ring : ℤ) : ℤ :=
  if ring ≠ 1 then (ring - 1) * 6 else 1

/-- `totalPositionsUpToRing` from `hexagon.py`:
`return 1 + 3 * ring * (ring - 1)`. -/
def totalPositionsUpToRing (ring : ℤ) : ℤ :=
  1 + 3 * ring * (ring - 1)

/-- Linear search for the least `j ≥ k` with `m ≤ j * j`, with enough fuel to
reach it.  Structural recursion keeps it kernel-computable. -/
def ceilSqrtFrom (m : ℕ) : ℕ → ℕ → ℕ
  | 0, k => k
  | fuel + 1, k => if m ≤ k * k then k else ceilSqrtFrom m fuel (k + 1)

/-- Least natural number whose square is at least `m`, i.e. the exact value of
`⌈√m⌉` for the real square root. -/
def ceilSqrt (m : ℕ) : ℕ :=
  ceilSqrtFrom m m 0

/-- `numRingsToHoldNumCells` from `hexagon.py`:

```
if numCells == 0:
    return 0
nPinRings = int(math.ceil(0.5 * (1 + math.sqrt(1 + 4 * (numCells - 1) // 3))))
```

`4 * (numCells - 1) // 3` is `(4 * (numCells - 1)) // 3` by Python operator
precedence, which the Lean term `4 * (numCells - 1) / 3` mirrors exactly.
`math.ceil`/`math.sqrt` are modelled as exact real arithmetic: for
`m = 1 + 4 * (numCells - 1) / 3 ≥ 1` the returned value `⌈(1 + √m)/2⌉` equals
`(⌈√m⌉ + 2) / 2` in natural division, because a natural `k` satisfies
`k ≥ (1 + √m)/2` iff `2k - 1 ≥ √m` iff `(2k - 1)² ≥ m` iff `2k - 1 ≥ ⌈√m⌉`
(for non-square `m` the real `√m` is irrational, so no natural ever equals it
and the ceiling is unaffected by the rounding of the midpoint). -/
def numRingsToHoldNumCells (numCells : ℕ) : ℕ :=
  if numCells = 0 then 0
  else (ceilSqrt (1 + 4 * (numCells - 1) / 3) + 2) / 2

/-- `getIndexOfRotatedCell` from `hexagon.py`, with `ValueError` modelled by
`Except.error` carrying the message of the raise statement. -/
def getIndexOfRotatedCell (initialCellIndex orientationNumber : ℤ) :
    Except String ℤ :=
  if orientationNumber < 0 ∨ 5 < orientationNumber then
    Except.error "ValueError: Orientation number must be in [0:5]"
  else if 1 < initialCellIndex then
    if orientationNumber = 0 then Except.ok initialCellIndex
    else
      let ring : ℤ := (numRingsToHoldNumCells initialCellIndex.toNat : ℤ)
      let tot_pins : ℤ := totalPositionsUpToRing ring
      let newPinLocation : ℤ := initialCellIndex + (ring - 1) * orientationNumber
      if tot_pins < newPinLocation then
        Except.ok (newPinLocation - (ring - 1) * 6)
      else Except.ok newPinLocation
  else if initialCellIndex = 1 then Except.ok initialCellIndex
  else Except.error "ValueError: Cell number must be positive"

/-- Modelled from the spec: `armi.utils.iterables.pivot` is imported by
`hexagon.py` but `iterables.py` is not under `src/`.  The spec describes it as
a cyclic shift ("Pivot / cyclic shift: reordering a fixed-length sequence by
rotating its elements circularly by a given offset"), with
`pivot(items, p)` placing the element at offset `p` (taken modulo the length)
first; equivalently `result[i] = items[(i + p) mod n]`.  This matches the
concrete scenario of the spec: one rotation step applies
`pivot(values, -1)` and turns `[0,10,20,30,40,50]` into
`[50,0,10,20,30,40]`. -/
def pivot {α : Type} (items : List α) (position : ℤ) : List α :=
  items.rotate ((position % (items.length : ℤ)).toNat)

/-- The ring loop of `rotateHexCellData`
(`for ring in range(2, nRings + 1): ...`), written as recursion on the number
`k` of rings still to process, carrying the current `ring` number and the part
`rest` of the data that starts at the current ring.  Each step takes this
ring's window of `numPositionsInRing ring = 6 * (ring - 1)` entries
(`pinsPerEdge = ring - 1`), shifts it by `-(nRotations * pinsPerEdge)` with
`pivot`, and continues on the remainder.  `List.take`/`List.drop` clamp at the
end of the list exactly as Python slices do. -/
def rotateRingsAux {α : Type} (s : ℤ) : ℕ → ℕ → List α → List α
  | 0, _, rest => rest
  | k + 1, ring, rest =>
      pivot (rest.take (6 * (ring - 1))) (-(s * ((ring : ℤ) - 1))) ++
        rotateRingsAux s k (ring + 1) (rest.drop (6 * (ring - 1)))

/-- `rotateHexCellData` from `hexagon.py`.  Validation order matches the
source: first the `isinstance` check (`TypeError`), then the length check
(`ValueError`), then `buffer[0] = data[0]` (an `IndexError` on an empty
container), then the ring loop for rings `2 .. numRingsToHoldNumCells cells`
(that is, `numRingsToHoldNumCells cells - 1` iterations).  The output mirrors
the container kind of the input. -/
def rotateHexCellData {α : Type} (data : PyData α) (cells nRotations : ℤ) :
    Except String (PyData α) :=
  match data with
  | PyData.other => Except.error "TypeError"
  | PyData.list xs =>
    if (xs.length : ℤ) ≠ cells then Except.error "ValueError"
    else
      match xs with
      | [] => Except.error "IndexError"
      | x :: rest =>
        Except.ok (PyData.list
          (x :: rotateRingsAux nRotations (numRingsToHoldNumCells cells.toNat - 1) 2 rest))
  | PyData.ndarray xs =>
    if (xs.length : ℤ) ≠ cells then Except.error "ValueError"
    else
      match xs with
      | [] => Except.error "IndexError"
      | x :: rest =>
        Except.ok (PyData.ndarray
          (x :: rotateRingsAux nRotations (numRingsToHoldNumCells cells.toNat - 1) 2 rest))

/-! ### Arithmetic facts about `ceilSqrt` and `numRingsToHoldNumCells` -/

lemma ceilSqrtFrom_spec (m : ℕ) :
    ∀ (fuel k : ℕ), m ≤ (k + fuel) * (k + fuel) → (∀ j, j < k → j * j < m) →
      m ≤ ceilSqrtFrom m fuel k * ceilSqrtFrom m fuel k ∧
        ∀ j, m ≤ j * j → ceilSqrtFrom m fuel k ≤ j := by
  intro fuel
  induction fuel with
  | zero =>
    intro k hk hlt
    simp only [ceilSqrtFrom]
    refine ⟨by simpa using hk, fun j hj => ?_⟩
    by_contra hc
    exact absurd hj (Nat.not_le.mpr (hlt j (by omega)))
  | succ fuel ih =>
    intro k hk hlt
    by_cases h : m ≤ k * k
    · simp only [ceilSqrtFrom, if_pos h]
      refine ⟨h, fun j hj => ?_⟩
      by_contra hc
      exact absurd hj (Nat.not_le.mpr (hlt j (by omega)))
    · simp only [ceilSqrtFrom, if_neg h]
      refine ih (k + 1) ((by omega : k + 1 + fuel = k + (fuel + 1)) ▸ hk)
        (fun j hj => ?_)
      rcases Nat.lt_or_ge j k with hjk | hjk
      · exact hlt j hjk
      · have : j = k := by omega
        subst this
        omega

lemma le_ceilSqrt_sq (m : ℕ) : m ≤ ceilSqrt m * ceilSqrt m := by
  refine (ceilSqrtFrom_spec m m 0 ?_ ?_).1
  · rcases Nat.eq_zero_or_pos m with h | h
    · simp [h]
    · simpa using Nat.le_mul_of_pos_left m h
  · intro j hj; omega

lemma ceilSqrt_le (m j : ℕ) (h : m ≤ j * j) : ceilSqrt m ≤ j := by
  refine (ceilSqrtFrom_spec m m 0 ?_ ?_).2 j h
  · rcases Nat.eq_zero_or_pos m with h0 | h0
    · simp [h0]
    · simpa using Nat.le_mul_of_pos_left m h0
  · intro j hj; omega

lemma sq_le_of_ceilSqrt_le (m j : ℕ) (h : ceilSqrt m ≤ j) : m ≤ j * j :=
  le_trans (le_ceilSqrt_sq m) (Nat.mul_le_mul h h)

lemma one_le_ceilSqrt (m : ℕ) (hm : 1 ≤ m) : 1 ≤ ceilSqrt m := by
  by_contra h
  have h0 : ceilSqrt m = 0 := by omega
  have := le_ceilSqrt_sq m
  rw [h0] at this
  omega

lemma numRingsToHoldNumCells_eq (c : ℕ) (hc : 1 ≤ c) :
    numRingsToHoldNumCells c = (ceilSqrt (1 + 4 * (c - 1) / 3) + 2) / 2 := by
  unfold numRingsToHoldNumCells
  rw [if_neg (by omega)]

lemma one_le_numRingsToHold (c : ℕ) (hc : 1 ≤ c) : 1 ≤ numRingsToHoldNumCells c := by
  rw [numRingsToHoldNumCells_eq c hc]
  have := one_le_ceilSqrt (1 + 4 * (c - 1) / 3) (by omega)
  omega

/-- Upper bound: the closed form never exceeds any ring `r ≥ 1` that can hold
`c` cells. -/
lemma numRingsToHold_le (c r : ℕ) (hr : 1 ≤ r) (h : c ≤ 1 + 3 * r * (r - 1)) :
    numRingsToHoldNumCells c ≤ r := by
  rcases Nat.eq_zero_or_pos c with hc | hc
  · simp [hc, numRingsToHoldNumCells]
  rw [numRingsToHoldNumCells_eq c hc]
  obtain ⟨t, rfl⟩ : ∃ t, r = t + 1 := ⟨r - 1, by omega⟩
  have h3 : 3 * (t + 1) * ((t + 1) - 1) = 3 * ((t + 1) * t) := by
    simp only [Nat.add_sub_cancel]; ring
  rw [h3] at h
  have hdiv : 4 * (c - 1) / 3 ≤ 4 * ((t + 1) * t) := by
    have h1 : 4 * (c - 1) ≤ 4 * ((t + 1) * t) * 3 := by omega
    have h2 : 4 * (c - 1) / 3 ≤ 4 * ((t + 1) * t) * 3 / 3 := Nat.div_le_div_right h1
    rwa [Nat.mul_div_cancel _ (by omega)] at h2
  have hm : 1 + 4 * (c - 1) / 3 ≤ (2 * t + 1) * (2 * t + 1) := by
    have : (2 * t + 1) * (2 * t + 1) = 1 + 4 * ((t + 1) * t) := by ring
    omega
  have := ceilSqrt_le _ _ hm
  omega

/-- Lower bound: the closed form always yields a ring large enough to hold
`c` cells. -/
lemma le_totalPositions_numRingsToHold (c : ℕ) (hc : 1 ≤ c) :
    c ≤ 1 + 3 * numRingsToHoldNumCells c * (numRingsToHoldNumCells c - 1) := by
  have hf1 : 1 ≤ numRingsToHoldNumCells c := one_le_numRingsToHold c hc
  obtain ⟨u, hu⟩ : ∃ u, numRingsToHoldNumCells c = u + 1 :=
    ⟨numRingsToHoldNumCells c - 1, by omega⟩
  by_contra hcon
  push_neg at hcon
  rw [hu] at hcon
  have h3 : 3 * (u + 1) * ((u + 1) - 1) = 3 * ((u + 1) * u) := by
    simp only [Nat.add_sub_cancel]; ring
  rw [h3] at hcon
  -- from 2 + 3(u+1)u ≤ c conclude 1 + 4(u+1)u < m
  have hdiv : 1 + 4 * ((u + 1) * u) ≤ 4 * (c - 1) / 3 := by
    have h1 : 4 + 4 * ((u + 1) * u) * 3 ≤ 4 * (c - 1) := by omega
    have h2 : (4 + 4 * ((u + 1) * u) * 3) / 3 ≤ 4 * (c - 1) / 3 := Nat.div_le_div_right h1
    rwa [Nat.add_mul_div_right _ _ (by omega : 0 < 3)] at h2
  have hsq : ¬ (1 + 4 * (c - 1) / 3 ≤ (2 * u + 1) * (2 * u + 1)) := by
    have : (2 * u + 1) * (2 * u + 1) = 1 + 4 * ((u + 1) * u) := by ring
    omega
  have hcs : 2 * u + 2 ≤ ceilSqrt (1 + 4 * (c - 1) / 3) := by
    by_contra hlt
    exact hsq (sq_le_of_ceilSqrt_le _ _ (by omega))
  have := numRingsToHoldNumCells_eq c hc
  omega

/-- Exactness at full-hexagon boundaries: `c = 1 + 3R(R-1)` needs exactly `R`
rings. -/
lemma numRingsToHold_full (R : ℕ) (hR : 1 ≤ R) :
    numRingsToHoldNumCells (1 + 3 * R * (R - 1)) = R := by
  set c := 1 + 3 * R * (R - 1) with hc
  refine le_antisymm (numRingsToHold_le c R hR (le_refl _)) ?_
  by_contra hlt
  push_neg at hlt
  have hle := le_totalPositions_numRingsToHold c (by omega)
  set f := numRingsToHoldNumCells c with hf
  have hf1 : 1 ≤ f := one_le_numRingsToHold c (by omega)
  -- f < R, so 1 + 3f(f-1) < 1 + 3R(R-1) = c, contradicting hle
  have hmono : 3 * f * (f - 1) < 3 * R * (R - 1) := by
    obtain ⟨a, ha⟩ : ∃ a, f = a + 1 := ⟨f - 1, by omega⟩
    obtain ⟨b, hb⟩ : ∃ b, R = b + 1 := ⟨R - 1, by omega⟩
    rw [ha, hb]
    have hab : a < b := by omega
    have e1 : 3 * (a + 1) * ((a + 1) - 1) = 3 * ((a + 1) * a) := by
      simp only [Nat.add_sub_cancel]; ring
    have e2 : 3 * (b + 1) * ((b + 1) - 1) = 3 * ((b + 1) * b) := by
      simp only [Nat.add_sub_cancel]; ring
    rw [e1, e2]
    have : (a + 1) * a < (b + 1) * b := by
      rcases Nat.eq_zero_or_pos b with hb0 | hb0
      · omega
      · calc (a + 1) * a ≤ b * (b - 1) := by
              apply Nat.mul_le_mul <;> omega
          _ < (b + 1) * b := by
              obtain ⟨v, hv⟩ : ∃ v, b = v + 1 := ⟨b - 1, by omega⟩
              rw [hv]; simp only [Nat.add_sub_cancel]; nlinarith
    omega
  omega

/-- The `ℤ`-valued `totalPositionsUpToRing` agrees with the `ℕ` closed form on
natural ring numbers (also at `0`, where both give `1`). -/
lemma totalPositionsUpToRing_natCast (r : ℕ) :
    totalPositionsUpToRing (r : ℤ) = ((1 + 3 * r * (r - 1) : ℕ) : ℤ) := by
  cases r with
  | zero => simp [totalPositionsUpToRing]
  | succ u =>
    unfold totalPositionsUpToRing
    have : (u + 1 : ℕ) - 1 = u := by omega
    rw [this]
    push_cast
    ring

/-! ### Facts about `pivot` and the ring loop of `rotateHexCellData` -/

lemma pivot_length {α : Type} (xs : List α) (p : ℤ) : (pivot xs p).length = xs.length :=
  List.length_rotate _ _

lemma pivot_perm {α : Type} (xs : List α) (p : ℤ) : (pivot xs p).Perm xs :=
  List.rotate_perm _ _

lemma rotateRingsAux_perm {α : Type} (s : ℤ) :
    ∀ (k ring : ℕ) (rest : List α), (rotateRingsAux s k ring rest).Perm rest := by
  intro k
  induction k with
  | zero => intro ring rest; simp [rotateRingsAux]
  | succ k ih =>
    intro ring rest
    simp only [rotateRingsAux]
    exact ((pivot_perm _ _).append (ih _ _)).trans
      (by rw [List.take_append_drop])

/-- Shifting a full ring by a multiple of six edge lengths is the identity. -/
lemma pivot_six_dvd {α : Type} (xs : List α) (e : ℕ) (s : ℤ) (h6 : (6 : ℤ) ∣ s)
    (hx : xs.length = 6 * e) : pivot xs (-(s * (e : ℤ))) = xs := by
  unfold pivot
  obtain ⟨m, rfl⟩ := h6
  have hdvd : ((xs.length : ℕ) : ℤ) ∣ -(6 * m * (e : ℤ)) := by
    refine ⟨-m, ?_⟩
    rw [hx]
    push_cast
    ring
  rw [Int.emod_eq_zero_of_dvd hdvd]
  simp [List.rotate_zero]

/-- Dropping the leading ring of a ring-structured tail leaves a
ring-structured tail, one starting ring higher. -/
lemma length_drop_ring {α : Type} (k b : ℕ) (rest : List α)
    (hlen : rest.length = 6 * (k + 1) * (b + 1) + 3 * (k + 1) * k) :
    (rest.drop (6 * (b + 1))).length = 6 * k * (b + 1 + 1) + 3 * k * (k - 1) := by
  rw [List.length_drop]
  rcases Nat.eq_zero_or_pos k with hk0 | hk0
  · subst hk0; simp at hlen ⊢; omega
  · obtain ⟨j, rfl⟩ : ∃ j, k = j + 1 := ⟨k - 1, by omega⟩
    simp only [Nat.add_sub_cancel]
    have hkk : 6 * (j + 1 + 1) * (b + 1) + 3 * (j + 1 + 1) * (j + 1) =
        6 * (b + 1) + (6 * (j + 1) * (b + 1 + 1) + 3 * (j + 1) * j) := by ring
    omega

/-- On a full hexagon, a rotation count that is a multiple of 6 leaves every
ring unchanged. -/
lemma rotateRingsAux_six_dvd {α : Type} (s : ℤ) (h6 : (6 : ℤ) ∣ s) :
    ∀ (k b : ℕ) (rest : List α),
      rest.length = 6 * k * (b + 1) + 3 * k * (k - 1) →
      rotateRingsAux s k (b + 2) rest = rest := by
  intro k
  induction k with
  | zero => intro b rest _; simp [rotateRingsAux]
  | succ k ih =>
    intro b rest hlen
    simp only [Nat.add_sub_cancel] at hlen
    simp only [rotateRingsAux]
    have hsub : b + 2 - 1 = b + 1 := by omega
    have hcast : ((b + 2 : ℕ) : ℤ) - 1 = ((b + 1 : ℕ) : ℤ) := by push_cast; ring
    rw [hsub, hcast]
    have hexp : 6 * (k + 1) * (b + 1) = 6 * (b + 1) + 6 * k * (b + 1) := by ring
    have htail : 6 * (b + 1) ≤ rest.length := by omega
    have htake : (rest.take (6 * (b + 1))).length = 6 * (b + 1) := by
      rw [List.length_take]; omega
    rw [pivot_six_dvd _ (b + 1) s h6 htake]
    rw [ih (b + 1) (rest.drop (6 * (b + 1))) (length_drop_ring k b rest hlen)]
    exact List.take_append_drop _ _

/-- The two `pivot`-related offsets cancel: first shifting a ring window by
`-x` and then reading it back at offset `(q + x) mod n` recovers offset `q`. -/
lemma toNat_emod_cancel (x : ℤ) (n q : ℕ) (hn : 0 < n) (hq : q < n) :
    ((((q : ℤ) + x) % (n : ℤ)).toNat + ((-x) % (n : ℤ)).toNat) % n = q := by
  have hn' : (0 : ℤ) < (n : ℤ) := by exact_mod_cast hn
  have hA0 : 0 ≤ ((q : ℤ) + x) % (n : ℤ) := Int.emod_nonneg _ (ne_of_gt hn')
  have hB0 : 0 ≤ (-x) % (n : ℤ) := Int.emod_nonneg _ (ne_of_gt hn')
  have hz : (((q : ℤ) + x) % (n : ℤ) + (-x) % (n : ℤ)) % (n : ℤ) = (q : ℤ) := by
    rw [← Int.add_emod]
    have hsum : (q : ℤ) + x + -x = (q : ℤ) := by ring
    rw [hsum]
    exact Int.emod_eq_of_lt (by positivity) (by exact_mod_cast hq)
  have h2 : (((((q : ℤ) + x) % (n : ℤ)).toNat + ((-x) % (n : ℤ)).toNat) % n : ℕ) = ((q : ℕ)) := by
    have h3 : ((((((q : ℤ) + x) % (n : ℤ)).toNat + ((-x) % (n : ℤ)).toNat) % n : ℕ) : ℤ) =
        ((q : ℕ) : ℤ) := by
      push_cast [Int.toNat_of_nonneg hA0, Int.toNat_of_nonneg hB0]
      convert hz using 2
    exact_mod_cast h3
  exact h2

/-- Index tracking through the ring loop: inside the ring lying `d` rings past
the starting ring `b + 2`, the entry that was at offset `q` of that ring
reappears at offset `(q + s * e) mod (6 * e)` of the same ring, where
`e = b + 1 + d` is the edge length of that ring and `s` the number of rotation
steps. -/
lemma rotateRingsAux_getElem {α : Type} (s : ℤ) :
    ∀ (k b : ℕ) (rest : List α), rest.length = 6 * k * (b + 1) + 3 * k * (k - 1) →
      ∀ (d q : ℕ), d < k → q < 6 * (b + 1 + d) →
        (rotateRingsAux s k (b + 2) rest)[6 * d * (b + 1) + 3 * d * (d - 1) +
            (((q : ℤ) + s * ((b + 1 + d : ℕ) : ℤ)) % ((6 * (b + 1 + d) : ℕ) : ℤ)).toNat]? =
          rest[6 * d * (b + 1) + 3 * d * (d - 1) + q]? := by
  intro k
  induction k with
  | zero => intro b rest hlen d q hd hq; omega
  | succ k ih =>
    intro b rest hlen d q hd hq
    simp only [Nat.add_sub_cancel] at hlen
    simp only [rotateRingsAux]
    have hsub : b + 2 - 1 = b + 1 := by omega
    have hcast : ((b + 2 : ℕ) : ℤ) - 1 = ((b + 1 : ℕ) : ℤ) := by push_cast; ring
    rw [hsub, hcast]
    have hexp : 6 * (k + 1) * (b + 1) = 6 * (b + 1) + 6 * k * (b + 1) := by ring
    have htail : 6 * (b + 1) ≤ rest.length := by omega
    have htake : (rest.take (6 * (b + 1))).length = 6 * (b + 1) := by
      rw [List.length_take]; omega
    cases d with
    | zero =>
      simp only [Nat.add_zero] at hq ⊢
      simp only [Nat.mul_zero, Nat.zero_mul, Nat.zero_add]
      have hNnat : 0 < 6 * (b + 1) := by omega
      have hN : (0 : ℤ) < ((6 * (b + 1) : ℕ) : ℤ) := by exact_mod_cast hNnat
      have hA0 : 0 ≤ ((q : ℤ) + s * ((b + 1 : ℕ) : ℤ)) % ((6 * (b + 1) : ℕ) : ℤ) :=
        Int.emod_nonneg _ (ne_of_gt hN)
      have hAlt : ((q : ℤ) + s * ((b + 1 : ℕ) : ℤ)) % ((6 * (b + 1) : ℕ) : ℤ) <
          ((6 * (b + 1) : ℕ) : ℤ) := Int.emod_lt_of_pos _ hN
      have hjlt : (((q : ℤ) + s * ((b + 1 : ℕ) : ℤ)) % ((6 * (b + 1) : ℕ) : ℤ)).toNat <
          6 * (b + 1) := by omega
      rw [List.getElem?_append_left (by rw [pivot_length, htake]; exact hjlt)]
      unfold pivot
      rw [htake]
      rw [List.getElem?_rotate (by rw [htake]; exact hjlt)]
      rw [htake]
      have harith := toNat_emod_cancel (s * ((b + 1 : ℕ) : ℤ)) (6 * (b + 1)) q hNnat hq
      rw [harith]
      rw [List.getElem?_take_of_lt hq]
    | succ d' =>
      simp only [Nat.add_sub_cancel]
      have hofs : 6 * (d' + 1) * (b + 1) + 3 * (d' + 1) * d' =
          6 * (b + 1) + (6 * d' * (b + 1 + 1) + 3 * d' * (d' - 1)) := by
        rcases Nat.eq_zero_or_pos d' with h0 | h0
        · subst h0; simp
        · obtain ⟨u, rfl⟩ : ∃ u, d' = u + 1 := ⟨d' - 1, by omega⟩
          simp only [Nat.add_sub_cancel]
          ring
      have hEq : b + 1 + (d' + 1) = b + 1 + 1 + d' := by omega
      rw [hEq] at hq
      rw [hEq]
      rw [List.getElem?_append_right (by rw [pivot_length, htake]; omega)]
      rw [pivot_length, htake]
      have hidx : 6 * (d' + 1) * (b + 1) + 3 * (d' + 1) * d' +
            (((q : ℤ) + s * ((b + 1 + 1 + d' : ℕ) : ℤ)) %
              ((6 * (b + 1 + 1 + d') : ℕ) : ℤ)).toNat - 6 * (b + 1) =
          6 * d' * (b + 1 + 1) + 3 * d' * (d' - 1) +
            (((q : ℤ) + s * ((b + 1 + 1 + d' : ℕ) : ℤ)) %
              ((6 * (b + 1 + 1 + d') : ℕ) : ℤ)).toNat := by omega
      rw [hidx]
      have hidxR : 6 * (d' + 1) * (b + 1) + 3 * (d' + 1) * d' + q =
          6 * (b + 1) + (6 * d' * (b + 1 + 1) + 3 * d' * (d' - 1) + q) := by omega
      rw [hidxR]
      conv_rhs => rw [← List.getElem?_drop]
      have h23 : b + 2 + 1 = b + 1 + 2 := by omega
      rw [h23]
      exact ih (b + 1) (rest.drop (6 * (b + 1))) (length_drop_ring k b rest hlen) d' q
        (by omega) hq

/-- Every position of the tail of a full hexagon lies in a unique ring: `d`
rings past ring 2, at offset `q` of that ring. -/
lemma ring_position_decomp :
    ∀ (k m : ℕ), m < 6 * k + 3 * k * (k - 1) →
      ∃ d q, d < k ∧ q < 6 * (d + 1) ∧ m = 6 * d + 3 * d * (d - 1) + q := by
  intro k
  induction k with
  | zero => intro m hm; omega
  | succ k ih =>
    intro m hm
    simp only [Nat.add_sub_cancel] at hm
    have hident : 3 * (k + 1) * k = 3 * k * (k - 1) + 6 * k := by
      rcases Nat.eq_zero_or_pos k with h0 | h0
      · subst h0; simp
      · obtain ⟨u, rfl⟩ : ∃ u, k = u + 1 := ⟨k - 1, by omega⟩
        simp only [Nat.add_sub_cancel]
        ring
    by_cases h : m < 6 * k + 3 * k * (k - 1)
    · obtain ⟨d, q, hd, hq, hm'⟩ := ih m h
      exact ⟨d, q, by omega, hq, hm'⟩
    · exact ⟨k, m - (6 * k + 3 * k * (k - 1)), by omega, by omega, by omega⟩

lemma totalPos_mono (a c : ℕ) (h : a ≤ c) : 3 * a * (a - 1) ≤ 3 * c * (c - 1) := by
  have h2 : a - 1 ≤ c - 1 := by omega
  calc 3 * a * (a - 1) = 3 * (a * (a - 1)) := by ring
    _ ≤ 3 * (c * (c - 1)) := Nat.mul_le_mul_left 3 (Nat.mul_le_mul h h2)
    _ = 3 * c * (c - 1) := by ring

/-- The closed-form ring count agrees with the sandwich characterisation of
the ring holding cell number `c`. -/
lemma numRingsToHold_sandwich (c : ℤ) (r : ℕ) (hc : 2 ≤ c)
    (hle : c ≤ totalPositionsUpToRing (r : ℤ))
    (hgt : totalPositionsUpToRing ((r - 1 : ℕ) : ℤ) < c) :
    numRingsToHoldNumCells c.toNat = r := by
  have hr1 : 1 ≤ r := by
    by_contra h0
    have hr0 : r = 0 := by omega
    subst hr0
    have h1 : totalPositionsUpToRing ((0 : ℕ) : ℤ) = 1 := by
      simp [totalPositionsUpToRing]
    omega
  rw [totalPositionsUpToRing_natCast] at hle hgt
  have hleN : c.toNat ≤ 1 + 3 * r * (r - 1) := by omega
  have hgtN : 1 + 3 * (r - 1) * (r - 1 - 1) < c.toNat := by omega
  refine le_antisymm (numRingsToHold_le _ r hr1 hleN) ?_
  by_contra hlt
  push_neg at hlt
  have hmem := le_totalPositions_numRingsToHold c.toNat (by omega)
  have hmono := totalPos_mono (numRingsToHoldNumCells c.toNat) (r - 1) (by omega)
  omega

/-- Evaluation of `getIndexOfRotatedCell` on a cell `c ≥ 2` whose ring is
characterised by the sandwich `totalPositionsUpToRing (r-1) < c ≤
totalPositionsUpToRing r`. -/
lemma getIndexOfRotatedCell_eval (c n : ℤ) (r : ℕ) (hc : 2 ≤ c)
    (hn0 : 0 ≤ n) (hn5 : n ≤ 5)
    (hle : c ≤ totalPositionsUpToRing (r : ℤ))
    (hgt : totalPositionsUpToRing ((r - 1 : ℕ) : ℤ) < c) :
    getIndexOfRotatedCell c n =
      Except.ok (if c + ((r : ℤ) - 1) * n ≤ totalPositionsUpToRing (r : ℤ)
        then c + ((r : ℤ) - 1) * n
        else c + ((r : ℤ) - 1) * n - 6 * ((r : ℤ) - 1)) := by
  have hring := numRingsToHold_sandwich c r hc hle hgt
  have hnot : ¬ (n < 0 ∨ 5 < n) := by omega
  have h1c : 1 < c := by omega
  simp only [getIndexOfRotatedCell]
  rw [if_neg hnot, if_pos h1c]
  by_cases hn : n = 0
  · subst hn
    rw [if_pos rfl]
    have h0 : c + ((r : ℤ) - 1) * 0 ≤ totalPositionsUpToRing (r : ℤ) := by
      rw [mul_zero, add_zero]; exact hle
    rw [if_pos h0, mul_zero, add_zero]
  · rw [if_neg hn, hring]
    by_cases hcase : c + ((r : ℤ) - 1) * n ≤ totalPositionsUpToRing (r : ℤ)
    · rw [if_neg (not_lt.mpr hcase), if_pos hcase]
    · rw [if_pos (not_le.mp hcase), if_neg hcase]
      congr 1
      ring

/-- Reducing the number of rotation steps modulo 6 does not change the per-ring
shift modulo the ring length. -/
lemma emod_reduce_steps (s : ℤ) (E q : ℕ) :
    ((q : ℤ) + s * ((E : ℕ) : ℤ)) % ((6 * E : ℕ) : ℤ) =
      ((q : ℤ) + (s % 6) * ((E : ℕ) : ℤ)) % ((6 * E : ℕ) : ℤ) := by
  have hdecomp : (q : ℤ) + s * ((E : ℕ) : ℤ) =
      ((q : ℤ) + (s % 6) * ((E : ℕ) : ℤ)) + ((6 * E : ℕ) : ℤ) * (s / 6) := by
    have hs : 6 * (s / 6) + s % 6 = s := Int.ediv_add_emod s 6
    push_cast
    nlinarith [hs]
  rw [hdecomp, Int.add_mul_emod_self_left]

/-- Evaluation of `rotateHexCellData` on a nonempty list whose length matches
the declared cell count. -/
lemma rotateHexCellData_list_eval {α : Type} (x : α) (rest : List α) (s : ℤ) :
    rotateHexCellData (PyData.list (x :: rest)) (((x :: rest).length : ℕ) : ℤ) s =
      Except.ok (PyData.list (x :: rotateRingsAux s
        (numRingsToHoldNumCells (x :: rest).length - 1) 2 rest)) := by
  simp only [rotateHexCellData]
  rw [if_neg (by simp), Int.toNat_natCast]

/-! ### Claim theorems -/

/-- C1: `numRingsToHoldNumCells` returns 0 for `cellCount = 0`, and for every
`cellCount ≥ 1` it returns the minimal ring index `r ≥ 1` with
`totalPositionsUpToRing r ≥ cellCount` (so the closed form agrees with the
brute-force incremental definition on every non-negative input, and the result
is 0 iff the input is 0). -/
theorem C1_ringsToHoldCount_minimal :
    numRingsToHoldNumCells 0 = 0 ∧
    ∀ c : ℕ, 1 ≤ c →
      1 ≤ numRingsToHoldNumCells c ∧
      (c : ℤ) ≤ totalPositionsUpToRing ((numRingsToHoldNumCells c : ℕ) : ℤ) ∧
      ∀ r : ℕ, 1 ≤ r → (c : ℤ) ≤ totalPositionsUpToRing ((r : ℕ) : ℤ) →
        numRingsToHoldNumCells c ≤ r := by
  refine ⟨rfl, fun c hc => ⟨one_le_numRingsToHold c hc, ?_, ?_⟩⟩
  · rw [totalPositionsUpToRing_natCast]
    have := le_totalPositions_numRingsToHold c hc
    omega
  · intro r hr hle
    rw [totalPositionsUpToRing_natCast] at hle
    exact numRingsToHold_le c r hr (by omega)

/-- Witness for C1 at `cellCount = 20` (rings hold 1, 7, 19, 37 cells, so the
minimal ring is 4). -/
theorem C1_witness :
    numRingsToHoldNumCells 0 = 0 ∧
    1 ≤ numRingsToHoldNumCells 20 ∧
    (20 : ℤ) ≤ totalPositionsUpToRing ((numRingsToHoldNumCells 20 : ℕ) : ℤ) ∧
    numRingsToHoldNumCells 20 ≤ 4 := by
  have h := C1_ringsToHoldCount_minimal
  have h20 := h.2 20 (by decide)
  exact ⟨h.1, h20.1, h20.2.1, h20.2.2 4 (by decide) (by decide)⟩

/-- C10: the closed-form ring count is exact at full-hexagon boundaries:
`numRingsToHoldNumCells (1 + 3R(R-1)) = R` for every `R ≥ 1`. -/
theorem C10_closed_form_exact_at_boundary (R : ℕ) (hR : 1 ≤ R) :
    numRingsToHoldNumCells (1 + 3 * R * (R - 1)) = R :=
  numRingsToHold_full R hR

/-- Witness for C10 at `R = 5` (`cellCount = 61`). -/
theorem C10_witness : numRingsToHoldNumCells (1 + 3 * 5 * (5 - 1)) = 5 :=
  C10_closed_form_exact_at_boundary 5 (by decide)

/-- C5 counterexample: at `ring = 0` the code returns `1 + 3·0·(0-1) = 1`,
not the sentinel 0 the claim states. -/
theorem C5_counterexample :
    totalPositionsUpToRing 0 = 1 ∧ ¬ totalPositionsUpToRing 0 = 0 := by decide

/-- C5 (amended): `totalPositionsUpToRing` returns `1 + 3·ring·(ring-1)` for
every ring (in particular 1, not 0, at `ring = 0`), and its result is
non-negative for every non-negative ring. -/
theorem C5_cumulativePositions :
    (∀ r : ℤ, 1 ≤ r → totalPositionsUpToRing r = 1 + 3 * r * (r - 1)) ∧
    totalPositionsUpToRing 0 = 1 ∧
    ∀ r : ℤ, 0 ≤ r → 0 ≤ totalPositionsUpToRing r := by
  refine ⟨fun r _ => rfl, by decide, fun r hr => ?_⟩
  unfold totalPositionsUpToRing
  have hnn : 0 ≤ r * (r - 1) := by
    rcases lt_or_ge r 1 with h | h
    · have : r = 0 := by omega
      subst this
      simp
    · exact mul_nonneg (by omega) (by omega)
  have h3 : 3 * r * (r - 1) = 3 * (r * (r - 1)) := by ring
  omega

/-- Witness for C5 at `ring = 3` (19 positions) and `ring = 7`. -/
theorem C5_witness :
    totalPositionsUpToRing 3 = 1 + 3 * 3 * (3 - 1) ∧
    totalPositionsUpToRing 0 = 1 ∧
    (0 : ℤ) ≤ totalPositionsUpToRing 7 :=
  ⟨C5_cumulativePositions.1 3 (by decide), C5_cumulativePositions.2.1,
    C5_cumulativePositions.2.2 7 (by decide)⟩

/-- C6 counterexample: at `ring = 0` the code does not fail; it returns the
value `(0 - 1) * 6 = -6`. -/
theorem C6_counterexample : numPositionsInRing 0 = -6 := by decide

/-- C6 (amended): `numPositionsInRing` returns 1 at `ring = 1` and
`6 · (ring - 1)` (a positive multiple of 6) for `ring ≥ 2`; for `ring < 1` it
performs no validation and returns a negative value instead of failing. -/
theorem C6_positionsInRing :
    numPositionsInRing 1 = 1 ∧
    (∀ r : ℤ, 2 ≤ r → numPositionsInRing r = 6 * (r - 1) ∧
      0 < numPositionsInRing r ∧ (6 : ℤ) ∣ numPositionsInRing r) ∧
    ∀ r : ℤ, r < 1 → numPositionsInRing r < 0 := by
  refine ⟨by decide, fun r hr => ?_, fun r hr => ?_⟩
  · have he : numPositionsInRing r = (r - 1) * 6 := by
      unfold numPositionsInRing
      rw [if_pos (by omega)]
    refine ⟨by rw [he]; ring, by omega, ⟨r - 1, by rw [he]; ring⟩⟩
  · have he : numPositionsInRing r = (r - 1) * 6 := by
      unfold numPositionsInRing
      rw [if_pos (by omega)]
    omega

/-- Witness for C6 at rings 1, 4 and -2. -/
theorem C6_witness :
    numPositionsInRing 1 = 1 ∧
    (numPositionsInRing 4 = 6 * (4 - 1) ∧ 0 < numPositionsInRing 4 ∧
      (6 : ℤ) ∣ numPositionsInRing 4) ∧
    numPositionsInRing (-2) < 0 :=
  ⟨C6_positionsInRing.1, C6_positionsInRing.2.1 4 (by decide),
    C6_positionsInRing.2.2 (-2) (by decide)⟩

/-- C7: `getIndexOfRotatedCell` fails exactly when `initialCellIndex < 1` or
`orientationNumber` is outside `[0, 5]`; every valid call returns normally,
and `orientationNumber = 0` or `initialCellIndex = 1` returns the index
unchanged. -/
theorem C7_rotatedIndex_validation :
    ∀ i n : ℤ,
      ((getIndexOfRotatedCell i n).isOk = false ↔ (i < 1 ∨ n < 0 ∨ 5 < n)) ∧
      (1 ≤ i → 0 ≤ n → n ≤ 5 → (n = 0 ∨ i = 1) →
        getIndexOfRotatedCell i n = Except.ok i) := by
  intro i n
  constructor
  · simp only [getIndexOfRotatedCell]
    split_ifs <;> simp [Except.isOk, Except.toBool] <;> omega
  · intro hi hn0 hn5 hcase
    simp only [getIndexOfRotatedCell]
    rw [if_neg (by omega)]
    rcases hcase with hn | hi1
    · subst hn
      by_cases h2 : 1 < i
      · rw [if_pos h2, if_pos rfl]
      · rw [if_neg h2, if_pos (by omega)]
    · subst hi1
      rw [if_neg (by omega), if_pos rfl]

/-- Witness for C7: `rotatedIndex(0, 1)` and `rotatedIndex(5, 6)` fail,
`rotatedIndex(9, 3)` succeeds, and `rotatedIndex(9, 0)` is the identity. -/
theorem C7_witness :
    (getIndexOfRotatedCell 0 1).isOk = false ∧
    (getIndexOfRotatedCell 5 6).isOk = false ∧
    ¬ (getIndexOfRotatedCell 9 3).isOk = false ∧
    getIndexOfRotatedCell 9 0 = Except.ok 9 := by
  refine ⟨?_, ?_, ?_, ?_⟩
  · exact ((C7_rotatedIndex_validation 0 1).1).mpr (by decide)
  · exact ((C7_rotatedIndex_validation 5 6).1).mpr (by decide)
  · intro h
    have := ((C7_rotatedIndex_validation 9 3).1).mp h
    omega
  · exact (C7_rotatedIndex_validation 9 0).2 (by decide) (by decide) (by decide) (Or.inl rfl)

/-- C8: `rotateHexCellData` fails with `TypeError` exactly when the container
is neither a list nor an ndarray, and fails with `ValueError` (the spec's
`InvalidArgument`) whenever a list or ndarray has a length different from
`cells`.  The embedding is a pure function, so a rejected call leaves the
caller's data untouched by construction. -/
theorem C8_rotateData_validation {α : Type} :
    ∀ cells nRot : ℤ,
      (∀ data : PyData α,
        rotateHexCellData data cells nRot = Except.error "TypeError" ↔
          data = PyData.other) ∧
      (∀ xs : List α, (xs.length : ℤ) ≠ cells →
        rotateHexCellData (PyData.list xs) cells nRot = Except.error "ValueError" ∧
        rotateHexCellData (PyData.ndarray xs) cells nRot = Except.error "ValueError") := by
  intro cells nRot
  constructor
  · intro data
    cases data with
    | other => simp [rotateHexCellData]
    | list xs =>
      simp only [rotateHexCellData]
      constructor
      · intro h
        exfalso
        by_cases hlen : (xs.length : ℤ) ≠ cells
        · rw [if_pos hlen] at h
          simp at h
        · rw [if_neg hlen] at h
          cases xs with
          | nil => simp at h
          | cons x rest => simp at h
      · intro h
        cases h
    | ndarray xs =>
      simp only [rotateHexCellData]
      constructor
      · intro h
        exfalso
        by_cases hlen : (xs.length : ℤ) ≠ cells
        · rw [if_pos hlen] at h
          simp at h
        · rw [if_neg hlen] at h
          cases xs with
          | nil => simp at h
          | cons x rest => simp at h
      · intro h
        cases h
  · intro xs hlen
    constructor <;> (simp only [rotateHexCellData]; rw [if_pos hlen])

/-- Witness for C8: a non-container input raises `TypeError`, and the spec's
example `rotateData([1,2,3], 4, 1)` raises the length-mismatch error for both
container kinds. -/
theorem C8_witness :
    (rotateHexCellData (PyData.other : PyData ℕ) 4 1 = Except.error "TypeError" ↔
      (PyData.other : PyData ℕ) = PyData.other) ∧
    rotateHexCellData (PyData.list ([1, 2, 3] : List ℕ)) 4 1 = Except.error "ValueError" ∧
    rotateHexCellData (PyData.ndarray ([1, 2, 3] : List ℕ)) 4 1 = Except.error "ValueError" := by
  have h := C8_rotateData_validation (α := ℕ) 4 1
  exact ⟨h.1 PyData.other, h.2 [1, 2, 3] (by decide)⟩

/-- C3: for `initialIndex ≥ 2` and `orientationNumber ∈ [1, 5]`, with `r` the
minimal ring index whose cumulative count reaches `initialIndex`,
`getIndexOfRotatedCell` returns `initialIndex + (r-1)·n`, corrected by a
single subtraction of `6·(r-1)` when that sum exceeds
`totalPositionsUpToRing r`; the single wrap always suffices (the result never
exceeds `totalPositionsUpToRing r`). -/
theorem C3_rotatedIndex_formula (i n : ℤ) (r : ℕ) (h2 : 2 ≤ i)
    (hn1 : 1 ≤ n) (hn5 : n ≤ 5)
    (hle : i ≤ totalPositionsUpToRing (r : ℤ))
    (hmin : ∀ q : ℕ, i ≤ totalPositionsUpToRing (q : ℤ) → r ≤ q) :
    ∃ v : ℤ, getIndexOfRotatedCell i n = Except.ok v ∧
      v = (if i + ((r : ℤ) - 1) * n ≤ totalPositionsUpToRing (r : ℤ)
        then i + ((r : ℤ) - 1) * n
        else i + ((r : ℤ) - 1) * n - 6 * ((r : ℤ) - 1)) ∧
      v ≤ totalPositionsUpToRing (r : ℤ) := by
  have hr1 : 1 ≤ r := by
    by_contra h0
    have hr0 : r = 0 := by omega
    subst hr0
    have h1 : totalPositionsUpToRing ((0 : ℕ) : ℤ) = 1 := by
      simp [totalPositionsUpToRing]
    omega
  have hgt : totalPositionsUpToRing ((r - 1 : ℕ) : ℤ) < i := by
    by_contra hnot
    push_neg at hnot
    have := hmin (r - 1) hnot
    omega
  have heval := getIndexOfRotatedCell_eval i n r h2 (by omega) hn5 hle hgt
  refine ⟨_, heval, rfl, ?_⟩
  have hrpos : (0 : ℤ) ≤ (r : ℤ) - 1 := by
    have : (1 : ℤ) ≤ (r : ℤ) := by exact_mod_cast hr1
    omega
  have hmul : ((r : ℤ) - 1) * n ≤ ((r : ℤ) - 1) * 5 :=
    mul_le_mul_of_nonneg_left hn5 hrpos
  split_ifs with hcase
  · exact hcase
  · have h5 : ((r : ℤ) - 1) * 5 = 5 * ((r : ℤ) - 1) := by ring
    omega

/-- Witness for C3 at `initialIndex = 8`, `orientationNumber = 5` (ring 3,
edge 2; `8 + 10 = 18 ≤ 19`, no wrap). -/
theorem C3_witness :
    ∃ v : ℤ, getIndexOfRotatedCell 8 5 = Except.ok v ∧
      v = (if (8 : ℤ) + (((3 : ℕ) : ℤ) - 1) * 5 ≤ totalPositionsUpToRing ((3 : ℕ) : ℤ)
        then (8 : ℤ) + (((3 : ℕ) : ℤ) - 1) * 5
        else (8 : ℤ) + (((3 : ℕ) : ℤ) - 1) * 5 - 6 * (((3 : ℕ) : ℤ) - 1)) ∧
      v ≤ totalPositionsUpToRing ((3 : ℕ) : ℤ) :=
  C3_rotatedIndex_formula 8 5 3 (by decide) (by decide) (by decide) (by decide)
    (fun q hq => by
      by_contra hlt
      push_neg at hlt
      interval_cases q <;> norm_num [totalPositionsUpToRing] at hq)

/-- C4 counterexample: `cellCount = 6` is not a full hexagon (ring 2 has 6
positions but the outer ring window is cut short at 5 entries), and a full
turn of 6 rotation steps does not restore the data. -/
theorem C4_counterexample :
    rotateHexCellData (PyData.list ([0, 1, 2, 3, 4, 5] : List ℕ)) 6 6 =
      Except.ok (PyData.list [0, 5, 1, 2, 3, 4]) ∧
    PyData.list ([0, 5, 1, 2, 3, 4] : List ℕ) ≠ PyData.list [0, 1, 2, 3, 4, 5] := by
  decide

/-- C4 (amended to full-hexagon cell counts, the documented precondition of
`rotateHexCellData`): for `cellCount = 1 + 3R(R-1)`, data of that length and
any rotation count divisible by 6, the rotated list equals the input. -/
theorem C4_full_circle_identity {α : Type} (R : ℕ) (hR : 1 ≤ R) (xs : List α)
    (hlen : xs.length = 1 + 3 * R * (R - 1)) (s : ℤ) (h6 : (6 : ℤ) ∣ s) :
    rotateHexCellData (PyData.list xs) ((1 + 3 * R * (R - 1) : ℕ) : ℤ) s =
      Except.ok (PyData.list xs) := by
  cases xs with
  | nil => simp at hlen; omega
  | cons x rest =>
    rw [← hlen, rotateHexCellData_list_eval]
    have hnum : numRingsToHoldNumCells (x :: rest).length = R := by
      rw [hlen]; exact numRingsToHold_full R hR
    rw [hnum]
    obtain ⟨u, rfl⟩ : ∃ u, R = u + 1 := ⟨R - 1, by omega⟩
    simp only [Nat.add_sub_cancel]
    have hrest : rest.length = 3 * (u + 1) * ((u + 1) - 1) := by
      have := hlen
      simp only [List.length_cons] at this
      omega
    have hident : 3 * (u + 1) * u = 6 * u + 3 * u * (u - 1) := by
      rcases Nat.eq_zero_or_pos u with h0 | h0
      · subst h0; simp
      · obtain ⟨w, rfl⟩ : ∃ w, u = w + 1 := ⟨u - 1, by omega⟩
        simp only [Nat.add_sub_cancel]
        ring
    simp only [Nat.add_sub_cancel] at hrest
    have hr2 : rest.length = 6 * u * (0 + 1) + 3 * u * (u - 1) := by omega
    have hid := rotateRingsAux_six_dvd s h6 u 0 rest hr2
    rw [show (0 : ℕ) + 2 = 2 from rfl] at hid
    rw [hid]

/-- Witness for C4: a two-ring hexagon (7 cells) with 12 rotation steps. -/
theorem C4_witness :
    rotateHexCellData (PyData.list ([10, 11, 12, 13, 14, 15, 16] : List ℕ))
        ((1 + 3 * 2 * (2 - 1) : ℕ) : ℤ) 12 =
      Except.ok (PyData.list [10, 11, 12, 13, 14, 15, 16]) :=
  C4_full_circle_identity 2 (by decide) _ (by decide) 12 (by decide)

/-- C9: on a full hexagon, the output of `rotateHexCellData` is a permutation
of the input: same length and same multiset of elements. -/
theorem C9_rotate_permutation {α : Type} (R : ℕ) (hR : 1 ≤ R) (xs : List α)
    (hlen : xs.length = 1 + 3 * R * (R - 1)) (s : ℤ) :
    ∃ ys : List α,
      rotateHexCellData (PyData.list xs) ((1 + 3 * R * (R - 1) : ℕ) : ℤ) s =
        Except.ok (PyData.list ys) ∧
      ys.length = xs.length ∧ (ys : Multiset α) = (xs : Multiset α) := by
  cases xs with
  | nil => simp at hlen; omega
  | cons x rest =>
    rw [← hlen, rotateHexCellData_list_eval]
    have hperm :
        (x :: rotateRingsAux s (numRingsToHoldNumCells (x :: rest).length - 1) 2 rest).Perm
          (x :: rest) :=
      List.Perm.cons x (rotateRingsAux_perm s _ _ rest)
    exact ⟨_, rfl, hperm.length_eq, Multiset.coe_eq_coe.mpr hperm⟩

/-- Witness for C9: a two-ring hexagon under one rotation step. -/
theorem C9_witness :
    ∃ ys : List ℕ,
      rotateHexCellData (PyData.list [0, 1, 2, 3, 4, 5, 6])
          ((1 + 3 * 2 * (2 - 1) : ℕ) : ℤ) 1 =
        Except.ok (PyData.list ys) ∧
      ys.length = ([0, 1, 2, 3, 4, 5, 6] : List ℕ).length ∧
      (ys : Multiset ℕ) = (([0, 1, 2, 3, 4, 5, 6] : List ℕ) : Multiset ℕ) :=
  C9_rotate_permutation 2 (by decide) _ (by decide) 1

/-- C2 counterexample: on a 7-cell hexagon with one rotation step, the value
at 0-based spiral index 1 moves to index 2, but `getIndexOfRotatedCell 1 1`
returns 1 (cell number 1 is the centre in its 1-based numbering), so reading
the output at `getIndexOfRotatedCell i (steps mod 6)` does not recover
`data[i]`. -/
theorem C2_counterexample :
    rotateHexCellData (PyData.list ([0, 1, 2, 3, 4, 5, 6] : List ℕ)) 7 1 =
      Except.ok (PyData.list [0, 6, 1, 2, 3, 4, 5]) ∧
    getIndexOfRotatedCell 1 (1 % 6) = Except.ok 1 ∧
    ¬ (([0, 6, 1, 2, 3, 4, 5] : List ℕ)[(1 : ℕ)]? =
        ([0, 1, 2, 3, 4, 5, 6] : List ℕ)[(1 : ℕ)]?) := by
  decide

/-- C2 (amended): `rotateHexCellData` indexes data 0-based with the centre at
index 0, while `getIndexOfRotatedCell` numbers cells 1-based with the centre
as cell 1.  On a full hexagon the bulk rotation therefore moves the value at
0-based spiral index `i ≥ 1` to the 0-based index
`getIndexOfRotatedCell (i + 1) (steps mod 6) - 1` (rather than to
`getIndexOfRotatedCell i (steps mod 6)` as literally claimed), and index 0 is
always fixed. -/
theorem C2_index_bulk_consistency {α : Type} (R : ℕ) (hR : 1 ≤ R) (xs : List α)
    (hlen : xs.length = 1 + 3 * R * (R - 1)) (s : ℤ) (i : ℕ) (hi1 : 1 ≤ i)
    (hi2 : i < 1 + 3 * R * (R - 1)) :
    ∃ (ys : List α) (v : ℤ),
      rotateHexCellData (PyData.list xs) ((1 + 3 * R * (R - 1) : ℕ) : ℤ) s =
        Except.ok (PyData.list ys) ∧
      getIndexOfRotatedCell ((i : ℤ) + 1) (s % 6) = Except.ok v ∧
      ys[(v - 1).toNat]? = xs[i]? ∧ ys[0]? = xs[0]? := by
  cases xs with
  | nil => simp at hlen; omega
  | cons x rest =>
    rw [← hlen, rotateHexCellData_list_eval]
    have hnum : numRingsToHoldNumCells (x :: rest).length = R := by
      rw [hlen]; exact numRingsToHold_full R hR
    rw [hnum]
    obtain ⟨u, rfl⟩ : ∃ u, R = u + 1 := ⟨R - 1, by omega⟩
    simp only [Nat.add_sub_cancel]
    simp only [Nat.add_sub_cancel] at hi2
    have hrest : rest.length = 3 * (u + 1) * u := by
      have h := hlen
      simp only [List.length_cons, Nat.add_sub_cancel] at h
      omega
    have hident : 3 * (u + 1) * u = 6 * u + 3 * u * (u - 1) := by
      rcases Nat.eq_zero_or_pos u with h0 | h0
      · subst h0; simp
      · obtain ⟨w, rfl⟩ : ∃ w, u = w + 1 := ⟨u - 1, by omega⟩
        simp only [Nat.add_sub_cancel]; ring
    obtain ⟨m0, rfl⟩ : ∃ m0, i = m0 + 1 := ⟨i - 1, by omega⟩
    obtain ⟨d, q, hd, hq, hm⟩ := ring_position_decomp u m0 (by omega)
    have hr2 : rest.length = 6 * u * (0 + 1) + 3 * u * (u - 1) := by omega
    have hbig := rotateRingsAux_getElem s u 0 rest hr2 d q hd (by omega)
    rw [show (0 : ℕ) + 2 = 2 from rfl] at hbig
    rw [emod_reduce_steps s (0 + 1 + d) q] at hbig
    set n := s % 6 with hn
    have hn0 : 0 ≤ n := Int.emod_nonneg s (by norm_num)
    have hn5 : n ≤ 5 := by
      have := Int.emod_lt_of_pos s (by norm_num : (0 : ℤ) < 6)
      omega
    have hA : 3 * (d + 2) * (d + 2 - 1) = 3 * (d + 2) * (d + 1) := by
      rw [show d + 2 - 1 = d + 1 from by omega]
    have hI2 : 3 * (d + 2) * (d + 1) = 3 * (d + 1) * d + 6 * (d + 1) := by ring
    have hI1 : 3 * (d + 1) * d = 3 * d * (d - 1) + 6 * d := by
      rcases Nat.eq_zero_or_pos d with h0 | h0
      · subst h0; simp
      · obtain ⟨w, rfl⟩ : ∃ w, d = w + 1 := ⟨d - 1, by omega⟩
        simp only [Nat.add_sub_cancel]; ring
    have hB : 3 * (d + 2 - 1) * (d + 2 - 1 - 1) = 3 * (d + 1) * d := by
      rw [show d + 2 - 1 = d + 1 from by omega, show d + 1 - 1 = d from by omega]
    have hle : ((m0 + 1 : ℕ) : ℤ) + 1 ≤ totalPositionsUpToRing ((d + 2 : ℕ) : ℤ) := by
      rw [totalPositionsUpToRing_natCast]
      omega
    have hgt : totalPositionsUpToRing ((d + 2 - 1 : ℕ) : ℤ) < ((m0 + 1 : ℕ) : ℤ) + 1 := by
      rw [totalPositionsUpToRing_natCast]
      omega
    have heval := getIndexOfRotatedCell_eval (((m0 + 1 : ℕ) : ℤ) + 1) n (d + 2)
      (by push_cast; omega) hn0 hn5 hle hgt
    have hcast6 : ((6 * (0 + 1 + d) : ℕ) : ℤ) = 6 * ((0 + 1 + d : ℕ) : ℤ) := by
      push_cast; ring
    have hd2cast : ((d + 2 : ℕ) : ℤ) - 1 = ((0 + 1 + d : ℕ) : ℤ) := by
      push_cast; ring
    have hmulcomm : (((d + 2 : ℕ) : ℤ) - 1) * n = n * ((0 + 1 + d : ℕ) : ℤ) := by
      rw [hd2cast]; ring
    have hT := totalPositionsUpToRing_natCast (d + 2)
    have hXpos : 0 ≤ (q : ℤ) + n * ((0 + 1 + d : ℕ) : ℤ) :=
      add_nonneg (Nat.cast_nonneg q) (mul_nonneg hn0 (Nat.cast_nonneg _))
    have hnE : n * ((0 + 1 + d : ℕ) : ℤ) ≤ 5 * ((0 + 1 + d : ℕ) : ℤ) :=
      mul_le_mul_of_nonneg_right hn5 (Nat.cast_nonneg _)
    have hqN : (q : ℤ) < ((6 * (0 + 1 + d) : ℕ) : ℤ) := by
      exact_mod_cast (show q < 6 * (0 + 1 + d) from by omega)
    refine ⟨_, _, rfl, heval, ?_, ?_⟩
    · by_cases hwrap : (q : ℤ) + n * ((0 + 1 + d : ℕ) : ℤ) < ((6 * (0 + 1 + d) : ℕ) : ℤ)
      · have hvemod : ((q : ℤ) + n * ((0 + 1 + d : ℕ) : ℤ)) % ((6 * (0 + 1 + d) : ℕ) : ℤ) =
            (q : ℤ) + n * ((0 + 1 + d : ℕ) : ℤ) :=
          Int.emod_eq_of_lt hXpos hwrap
        rw [hvemod] at hbig
        have hcond : ((m0 + 1 : ℕ) : ℤ) + 1 + (((d + 2 : ℕ) : ℤ) - 1) * n ≤
            totalPositionsUpToRing ((d + 2 : ℕ) : ℤ) := by
          rw [hT, hmulcomm]
          omega
        rw [if_pos hcond]
        have hw : (((m0 + 1 : ℕ) : ℤ) + 1 + (((d + 2 : ℕ) : ℤ) - 1) * n - 1).toNat =
            (6 * d * (0 + 1) + 3 * d * (d - 1) +
              ((q : ℤ) + n * ((0 + 1 + d : ℕ) : ℤ)).toNat) + 1 := by
          rw [hmulcomm]
          omega
        rw [hw, List.getElem?_cons_succ, List.getElem?_cons_succ]
        have hm0 : m0 = 6 * d * (0 + 1) + 3 * d * (d - 1) + q := by omega
        rw [hm0]
        exact hbig
      · push_neg at hwrap
        have hvemod : ((q : ℤ) + n * ((0 + 1 + d : ℕ) : ℤ)) % ((6 * (0 + 1 + d) : ℕ) : ℤ) =
            (q : ℤ) + n * ((0 + 1 + d : ℕ) : ℤ) - ((6 * (0 + 1 + d) : ℕ) : ℤ) := by
          have h1 : (q : ℤ) + n * ((0 + 1 + d : ℕ) : ℤ) =
              ((q : ℤ) + n * ((0 + 1 + d : ℕ) : ℤ) - ((6 * (0 + 1 + d) : ℕ) : ℤ)) +
                ((6 * (0 + 1 + d) : ℕ) : ℤ) * 1 := by ring
          conv_lhs => rw [h1]
          rw [Int.add_mul_emod_self_left]
          have hlow : 0 ≤ (q : ℤ) + n * ((0 + 1 + d : ℕ) : ℤ) - ((6 * (0 + 1 + d) : ℕ) : ℤ) := by
            omega
          have hhigh : (q : ℤ) + n * ((0 + 1 + d : ℕ) : ℤ) - ((6 * (0 + 1 + d) : ℕ) : ℤ) <
              ((6 * (0 + 1 + d) : ℕ) : ℤ) := by
            omega
          exact Int.emod_eq_of_lt hlow hhigh
        rw [hvemod] at hbig
        have hcond : ¬ (((m0 + 1 : ℕ) : ℤ) + 1 + (((d + 2 : ℕ) : ℤ) - 1) * n ≤
            totalPositionsUpToRing ((d + 2 : ℕ) : ℤ)) := by
          rw [hT, hmulcomm]
          omega
        rw [if_neg hcond]
        have hw : (((m0 + 1 : ℕ) : ℤ) + 1 + (((d + 2 : ℕ) : ℤ) - 1) * n -
              6 * (((d + 2 : ℕ) : ℤ) - 1) - 1).toNat =
            (6 * d * (0 + 1) + 3 * d * (d - 1) +
              ((q : ℤ) + n * ((0 + 1 + d : ℕ) : ℤ) - ((6 * (0 + 1 + d) : ℕ) : ℤ)).toNat) + 1 := by
          rw [hmulcomm, hd2cast]
          omega
        rw [hw, List.getElem?_cons_succ, List.getElem?_cons_succ]
        have hm0 : m0 = 6 * d * (0 + 1) + 3 * d * (d - 1) + q := by omega
        rw [hm0]
        exact hbig
    · rw [List.getElem?_cons_zero, List.getElem?_cons_zero]

/-- Witness for C2: a three-ring hexagon (19 cells), one rotation step, index
7 (ring 3, position 1; cell number 8 moves to cell number 10, 0-based index
9). -/
theorem C2_witness :
    ∃ (ys : List ℕ) (v : ℤ),
      rotateHexCellData (PyData.list [0, 1, 2, 3, 4, 5, 6, 7, 8, 9, 10, 11, 12, 13, 14, 15, 16, 17, 18])
          ((1 + 3 * 3 * (3 - 1) : ℕ) : ℤ) 1 =
        Except.ok (PyData.list ys) ∧
      getIndexOfRotatedCell (((7 : ℕ) : ℤ) + 1) (1 % 6) = Except.ok v ∧
      ys[(v - 1).toNat]? =
        ([0, 1, 2, 3, 4, 5, 6, 7, 8, 9, 10, 11, 12, 13, 14, 15, 16, 17, 18] : List ℕ)[(7 : ℕ)]? ∧
      ys[0]? = ([0, 1, 2, 3, 4, 5, 6, 7, 8, 9, 10, 11, 12, 13, 14, 15, 16, 17, 18] : List ℕ)[(0 : ℕ)]? :=
  C2_index_bulk_consistency 3 (by decide) _ (by decide) 1 7 (by decide) (by decide)

example : numRingsToHoldNumCells 0 = 0 := by decide
example : numRingsToHoldNumCells 1 = 1 := by decide
example : numRingsToHoldNumCells 2 = 2 := by decide
example : numRingsToHoldNumCells 7 = 2 := by decide
example : numRingsToHoldNumCells 8 = 3 := by decide
example : numRingsToHoldNumCells 19 = 3 := by decide
example : numRingsToHoldNumCells 20 = 4 := by decide
example : numRingsToHoldNumCells 37 = 4 := by decide
example : pivot ([0, 10, 20, 30, 40, 50] : List ℤ) (-1) = [50, 0, 10, 20, 30, 40] := by decide
example : getIndexOfRotatedCell 2 1 = Except.ok 3 := by decide
example : getIndexOfRotatedCell 7 1 = Except.ok 2 := by decide
example :
    rotateHexCellData (PyData.list ([0, 1, 2, 3, 4, 5, 6] : List ℕ)) 7 1 =
      Except.ok (PyData.list [0, 6, 1, 2, 3, 4, 5]) := by decide

end ArmiHexagon
